import Mathlib

/-!
# Expense controller: a shallow embedding and its checked properties

The development embeds `src/controllers/expenseController.js` (the five request
handlers `getExpenses`, `addExpense`, `updateExpense`, `deleteExpense`,
`updateCategory`) as Lean functions from a store state and a request to an
outcome and a new store state.

Layout:

* JavaScript values as they arrive in a parsed JSON body, truthiness, `trim`;
* the regular expression object built by `new RegExp(source, 'i')`;
* the document collection behind the `Expense` model and the six calls the
  controller makes on it;
* the handlers, statement by statement;
* lemmas and the theorems about the handlers.

What is outside `src/` and how it is represented:

* `models/Expense.js` (the schema) is not available.  Documents carry the four
  data fields as JavaScript values exactly as the controller hands them over;
  no schema cast, default or validator is applied.
* A call on the collection fails in one way only: the path parameter handed
  to `findById` and its siblings is not a well-formed identifier, and the call
  throws.  Failures of the persistence engine itself are outside the model.
* Numbers are integers: the handlers only copy a number or test it for zero.
* Strings are sequences of Unicode code points.  All white space of `trim`
  lies in the Basic Multilingual Plane, where code points and the code units
  of JavaScript coincide.
* The filter of `updateCategory` is evaluated with the ECMAScript meaning of
  the regular expression that the handler builds.
-/

namespace ExpenseServer

/-! ## JavaScript values -/

/-- A value of a parsed JSON request body, plus `undefined` for a property that
is not there. -/
inductive JsVal where
  | undefined
  | null
  | bool (b : Bool)
  | num (n : Int)
  | str (s : String)
  | arr (items : List JsVal)
  | obj (fields : List (String × JsVal))

/-- The exceptions raised while a handler runs: by the controller code itself,
or by the cast of a path parameter to an identifier.  `notModelled`
marks a regular-expression construct that lies outside the fragment embedded
below; in JavaScript such a pattern may well compile. -/
inductive JsError where
  | typeError
  | syntaxError
  | castError
  | notModelled
deriving DecidableEq, Repr

/-- JavaScript `ToBoolean`, the test made by `if (x)` and by `!x`. -/
def JsVal.truthy : JsVal → Bool
  | .undefined => false
  | .null => false
  | .bool b => b
  | .num n => n != 0
  | .str s => s.data != []
  | .arr _ => true
  | .obj _ => true

/-- Property read `v[key]` on a value that is neither `undefined` nor `null`.
Own properties of a JSON object are looked up; every other value has none of
the keys the controller reads (`title`, `amount`, `category`, `date`,
`newCategory`), so the read yields `undefined`. -/
def JsVal.getProp (v : JsVal) (key : String) : JsVal :=
  match v with
  | .obj fields => (fields.lookup key).getD .undefined
  | _ => .undefined

/-- The object pattern `const { ... } = v`: it throws a `TypeError` when `v` is
`undefined` or `null`, and otherwise gives access to the properties of `v`. -/
def destructure (v : JsVal) : Except JsError (String → JsVal) :=
  match v with
  | .undefined => .error .typeError
  | .null => .error .typeError
  | v => .ok v.getProp

/-- White space and line terminators of ECMAScript, the code points removed by
`String.prototype.trim`. -/
def isWhiteSpace (c : Char) : Bool :=
  [9, 10, 11, 12, 13, 32, 160, 5760, 8232, 8233, 8239, 8287, 12288, 65279].contains c.toNat
    || (8192 ≤ c.toNat && c.toNat ≤ 8202)

/-- The function `String.prototype.trim` on the characters of a string. -/
def trimChars (cs : List Char) : List Char :=
  ((cs.dropWhile isWhiteSpace).reverse.dropWhile isWhiteSpace).reverse

/-- The method call `v.trim()`: defined on strings; on any other truthy JSON
value `v.trim` is not a function and the call throws a `TypeError`. -/
def JsVal.trim : JsVal → Except JsError String
  | .str s => .ok ⟨trimChars s.data⟩
  | _ => .error .typeError

/-- String conversion used by a template literal. Only the string case is
reached by the controller. -/
def JsVal.toJsString : JsVal → String
  | .undefined => "undefined"
  | .null => "null"
  | .bool b => if b then "true" else "false"
  | .num n => toString n
  | .str s => s
  | .arr _ => ""
  | .obj _ => "[object Object]"

/-! ## Regular expressions

The fragment of the ECMAScript pattern language that is embedded: pattern
characters, `.`, `^`, `$`, `|`, groups `( )`, the quantifiers
`*`, `+`, `?` (greedy or lazy) and a backslash before a syntax character.
Classes, braces, the remaining escapes and the groups that open with `(?` are
reported as `notModelled`.  Without captures and back-references, whether a pattern
matches does not depend on the order in which alternatives are tried, so the
matcher computes the set of reachable end positions.
-/

/-- Abstract syntax of a pattern. -/
inductive Regex where
  | empty
  | char (c : Char)
  | any
  | bol
  | eol
  | seq (a b : Regex)
  | alt (a b : Regex)
  | star (r : Regex)
deriving DecidableEq, Repr

/-- Lexical classes of pattern text. -/
inductive Tok where
  | lit (c : Char)
  | dot
  | caret
  | dollar
  | bar
  | lparen
  | rparen
  | star
  | plus
  | quest
  | other
  | dangling
deriving DecidableEq, Repr

/-- The syntax characters of ECMAScript patterns, each of which may follow a
backslash to stand for itself. -/
def isSyntaxChar (c : Char) : Bool :=
  "^$\\.*+?()[]|/".data.contains c || c.toNat = 123 || c.toNat = 125

/-- The token of a character that is not escaped. -/
def classify (c : Char) : Tok :=
  if c = '(' then .lparen
  else if c = ')' then .rparen
  else if c = '.' then .dot
  else if c = '^' then .caret
  else if c = '$' then .dollar
  else if c = '|' then .bar
  else if c = '*' then .star
  else if c = '+' then .plus
  else if c = '?' then .quest
  else if c = '[' ∨ c = ']' ∨ c.toNat = 123 ∨ c.toNat = 125 then .other
  else .lit c

/-- Splits pattern text into tokens; the flag tells whether the previous
character was an unescaped backslash.  `other` stands for text outside the
embedded fragment and `dangling` for a backslash that ends the pattern. -/
def tokenize : Bool → List Char → List Tok
  | false, [] => []
  | true, [] => [.dangling]
  | true, d :: rest => (if isSyntaxChar d then .lit d else .other) :: tokenize false rest
  | false, c :: rest =>
    if c = '\\' then tokenize true rest else classify c :: tokenize false rest

/-- Applies the quantifier, if any, that follows an atom; a lazy marker `?`
after the quantifier is consumed and changes nothing for a yes/no match. -/
def applyQuantifier (atom : Regex) : List Tok → Regex × List Tok
  | .star :: .quest :: rest => (.star atom, rest)
  | .star :: rest => (.star atom, rest)
  | .plus :: .quest :: rest => (.seq atom (.star atom), rest)
  | .plus :: rest => (.seq atom (.star atom), rest)
  | .quest :: .quest :: rest => (.alt atom .empty, rest)
  | .quest :: rest => (.alt atom .empty, rest)
  | rest => (atom, rest)

mutual
/-- Disjunction: alternatives separated by `|`. -/
def parseDisjunction : Nat → List Tok → Except JsError (Regex × List Tok)
  | 0, _ => .error .notModelled
  | fuel + 1, ts =>
    match parseAlternative fuel ts with
    | .error e => .error e
    | .ok (a, .bar :: rest) =>
      match parseDisjunction fuel rest with
      | .error e => .error e
      | .ok (d, rest2) => .ok (.alt a d, rest2)
    | .ok (a, rest) => .ok (a, rest)
/-- Alternative: a sequence of terms, ended by `|`, `)` or the end of the
pattern. -/
def parseAlternative : Nat → List Tok → Except JsError (Regex × List Tok)
  | 0, _ => .error .notModelled
  | _ + 1, [] => .ok (.empty, [])
  | _ + 1, .bar :: rest => .ok (.empty, .bar :: rest)
  | _ + 1, .rparen :: rest => .ok (.empty, .rparen :: rest)
  | fuel + 1, ts =>
    match parseTerm fuel ts with
    | .error e => .error e
    | .ok (t, rest) =>
      match parseAlternative fuel rest with
      | .error e => .error e
      | .ok (a, rest2) => .ok (.seq t a, rest2)
/-- Term: an assertion, or an atom with an optional quantifier.  A quantifier
with nothing to repeat is a syntax error, and so is a group that is not
closed. -/
def parseTerm : Nat → List Tok → Except JsError (Regex × List Tok)
  | 0, _ => .error .notModelled
  | _ + 1, [] => .error .syntaxError
  | _ + 1, .caret :: rest => .ok (.bol, rest)
  | _ + 1, .dollar :: rest => .ok (.eol, rest)
  | _ + 1, .lit c :: rest => .ok (applyQuantifier (.char c) rest)
  | _ + 1, .dot :: rest => .ok (applyQuantifier .any rest)
  | _ + 1, .lparen :: .quest :: _ => .error .notModelled
  | fuel + 1, .lparen :: rest =>
    match parseDisjunction fuel rest with
    | .error e => .error e
    | .ok (d, .rparen :: rest2) => .ok (applyQuantifier d rest2)
    | .ok _ => .error .syntaxError
  | _ + 1, .other :: _ => .error .notModelled
  | _ + 1, _ => .error .syntaxError
end

/-- The regular expression object: its pattern and the `i` flag. -/
structure RegExp where
  ast : Regex
  ignoreCase : Bool
deriving DecidableEq, Repr

/-- The constructor `new RegExp(source, flags)`.  It throws a `SyntaxError` on
a malformed pattern (a bracket left over is one).  Of the flags only the empty
string and `i` are embedded.  The parser descends at most three levels per
token, which is the fuel it gets. -/
def RegExp.new (source flags : String) : Except JsError RegExp :=
  let ts := tokenize false source.data
  match parseDisjunction (3 * ts.length + 3) ts with
  | .error e => .error e
  | .ok (r, []) =>
    if flags = "i" then .ok ⟨r, true⟩
    else if flags = "" then .ok ⟨r, false⟩
    else .error .notModelled
  | .ok (_, _ :: _) => .error .syntaxError

/-- Canonical form of a character for comparison.  With the `i` flag the ASCII
letters are folded to upper case.  ECMAScript never folds a character outside
ASCII onto an ASCII one, so against an ASCII pattern character this is exact;
folding between two characters outside ASCII is not embedded. -/
def canonicalize (ignoreCase : Bool) (c : Char) : Char :=
  if ignoreCase then c.toUpper else c

/-- Line terminators, which `.` does not match. -/
def isLineTerminator (c : Char) : Bool :=
  c.toNat = 10 || c.toNat = 13 || c.toNat = 8232 || c.toNat = 8233

/-- A position of the matcher: whether it is the start of the input, and the
input that is left. -/
abbrev Pos := Bool × List Char

/-- Repetition: the positions reachable by zero or more rounds of `step`, each
round consuming input.  A round that consumes nothing adds no position. -/
def starIter (step : Pos → List Pos) : Nat → Pos → List Pos
  | 0, p => [p]
  | fuel + 1, p =>
    p :: ((step p).filter (fun q => q.2.length < p.2.length)).flatMap (starIter step fuel)

/-- The positions at which a match of the pattern that starts at `p` can
end. -/
def Regex.run (ic : Bool) : Regex → Pos → List Pos
  | .empty, p => [p]
  | .char c, (_, d :: rest) =>
    if canonicalize ic d = canonicalize ic c then [(false, rest)] else []
  | .char _, (_, []) => []
  | .any, (_, d :: rest) => if isLineTerminator d then [] else [(false, rest)]
  | .any, (_, []) => []
  | .bol, p => if p.1 then [p] else []
  | .eol, p => if p.2.isEmpty then [p] else []
  | .seq a b, p => (a.run ic p).flatMap (b.run ic)
  | .alt a b, p => a.run ic p ++ b.run ic p
  | .star r, p => starIter (r.run ic) (p.2.length + 1) p

/-- Every position of the input at which a match may start. -/
def startPositions (input : List Char) : List Pos :=
  (true, input) :: (input.tails.tail.map (fun rest => (false, rest)))

/-- Whether the regular expression matches somewhere in the string (the
patterns of the controller carry their own anchors). -/
def RegExp.test (re : RegExp) (input : String) : Bool :=
  (startPositions input.data).any (fun p => !(re.ast.run re.ignoreCase p).isEmpty)

/-! ## The document collection

The collection behind the `Expense` model, with the calls the controller makes
on it.  Identifiers are store-assigned; a document carries its identifier as
the number that the twelve bytes of an ObjectId denote, and a request carries
the path parameter as the string it is.  The owner of a document is the string
that `expense.user.toString()` yields.
-/

/-- Modelled from the spec: one document of the collection declared in
`models/Expense.js`, which is not available.  The attributes are those of the
data model of the spec: identifier, owning user, title, amount, category and
date.  The four data attributes hold the JavaScript value that the controller
handed to the store; a store whose values are a string, a number, a string
and a timestamp is a special case. -/
structure Expense where
  _id : Nat
  user : String
  title : JsVal
  amount : JsVal
  category : JsVal
  date : JsVal

/-- The calls of the controller on the collection. -/
inductive StoreCall where
  | find
  | save
  | findById
  | findByIdAndUpdate
  | findByIdAndDelete
  | updateMany
deriving DecidableEq, Repr

/-- State of the store: the documents, and the calls received so far (most
recent first). -/
structure Store where
  docs : List Expense
  calls : List StoreCall

/-- Lexicographic comparison of sort keys. -/
def lexLe : List Int → List Int → Bool
  | [], _ => true
  | _ :: _, [] => false
  | a :: as, b :: bs => decide (a < b) || (a == b && lexLe as bs)

/-- Key of a value in the comparison order of the store: values are ordered
by kind first (missing and null, numbers, strings, objects, arrays, booleans),
numbers by value, strings by code points, `false` before `true`.  Two objects
or two arrays are not told apart by this key. -/
def JsVal.sortKey : JsVal → List Int
  | .undefined => [0]
  | .null => [0]
  | .num n => [1, n]
  | .str s => 2 :: s.data.map (fun c => (c.toNat : Int))
  | .obj _ => [3]
  | .arr _ => [4]
  | .bool b => [5, if b then 1 else 0]

/-- The order of `sort({ date: -1 })`: `a` may precede `b` when the date of
`a` is at least the date of `b`. -/
def dateDesc (a b : Expense) : Prop := lexLe b.date.sortKey a.date.sortKey = true

instance : DecidableRel dateDesc := fun a b =>
  inferInstanceAs (Decidable (lexLe b.date.sortKey a.date.sortKey = true))

/-- The query `Expense.find({ user }).sort({ date: -1 })`. -/
def Store.find (s : Store) (user : String) : List Expense × Store :=
  ((s.docs.filter (fun e => e.user = user)).insertionSort dateDesc,
   { s with calls := .find :: s.calls })

/-- An identifier that no document of the collection carries. -/
def Store.freshId (s : Store) : Nat :=
  (s.docs.map (fun e => e._id)).foldr max 0 + 1

/-- The call `new Expense({ user, title, amount, category, date }).save()`:
the document is inserted under a fresh identifier and returned. -/
def Store.save (s : Store) (user : String) (title amount category date : JsVal) :
    Expense × Store :=
  let doc : Expense := ⟨s.freshId, user, title, amount, category, date⟩
  (doc, { docs := s.docs ++ [doc], calls := .save :: s.calls })

/-- Value of a hexadecimal digit. -/
def hexDigit (c : Char) : Option Nat :=
  if 48 ≤ c.toNat ∧ c.toNat ≤ 57 then some (c.toNat - 48)
  else if 97 ≤ c.toNat ∧ c.toNat ≤ 102 then some (c.toNat - 87)
  else if 65 ≤ c.toNat ∧ c.toNat ≤ 70 then some (c.toNat - 55)
  else none

/-- Value of a sequence of hexadecimal digits, most significant first, on top
of the value `acc` read so far; `none` when a character is not such a digit. -/
def hexValue (acc : Nat) : List Char → Option Nat
  | [] => some acc
  | c :: rest =>
    match hexDigit c with
    | none => none
    | some d => hexValue (16 * acc + d) rest

/-- The cast that the model applies to the string `id` of `findById(id)` and
its siblings.  The identifiers of the collection are ObjectIds, the default of
a schema, and an ObjectId is written as 24 hexadecimal digits; for any other
string the cast fails and the call throws a `CastError`.  (Older drivers also
take a string of twelve characters, which this cast does not.) -/
def castObjectId (id : String) : Option Nat :=
  if id.data.length = 24 then hexValue 0 id.data else none

/-- The call `Expense.findById(id)`; `none` stands for `null`. -/
def Store.findById (s : Store) (id : String) : Except JsError (Option Expense) × Store :=
  match castObjectId id with
  | none => (.error .castError, { s with calls := .findById :: s.calls })
  | some k => (.ok (s.docs.find? (fun e => e._id = k)), { s with calls := .findById :: s.calls })

/-- The object `expenseFields`: each key is present or not. -/
structure ExpenseFields where
  title : Option JsVal
  amount : Option JsVal
  category : Option JsVal
  date : Option JsVal

/-- The update `{ $set: fields }` applied to one document. -/
def Expense.set (e : Expense) (fields : ExpenseFields) : Expense :=
  { e with
    title := fields.title.getD e.title
    amount := fields.amount.getD e.amount
    category := fields.category.getD e.category
    date := fields.date.getD e.date }

/-- The call `Expense.findByIdAndUpdate(id, { $set: fields }, { new: true })`:
the document with that identifier is updated, and returned as it is after the
update. -/
def Store.findByIdAndUpdate (s : Store) (id : String) (fields : ExpenseFields) :
    Except JsError (Option Expense) × Store :=
  match castObjectId id with
  | none => (.error .castError, { s with calls := .findByIdAndUpdate :: s.calls })
  | some k =>
    let docs := s.docs.map (fun e => if e._id = k then e.set fields else e)
    (.ok (docs.find? (fun e => e._id = k)),
     { docs := docs, calls := .findByIdAndUpdate :: s.calls })

/-- The call `Expense.findByIdAndDelete(id)`. -/
def Store.findByIdAndDelete (s : Store) (id : String) :
    Except JsError (Option Expense) × Store :=
  match castObjectId id with
  | none => (.error .castError, { s with calls := .findByIdAndDelete :: s.calls })
  | some k =>
    (.ok (s.docs.find? (fun e => e._id = k)),
     { docs := s.docs.filter (fun e => ¬ e._id = k),
       calls := .findByIdAndDelete :: s.calls })

/-- The filter `{ user, category: re }` on one document.  A regular expression
selects string values only. -/
def findQuery (user : String) (re : RegExp) (e : Expense) : Bool :=
  e.user = user &&
    match e.category with
    | .str c => re.test c
    | _ => false

/-- The call `Expense.updateMany({ user, category: re }, { $set: { category } })`;
the number returned is `matchedCount`. -/
def Store.updateMany (s : Store) (user : String) (re : RegExp) (category : JsVal) :
    Nat × Store :=
  ((s.docs.filter (findQuery user re)).length,
   { docs := s.docs.map (fun e => if findQuery user re e then { e with category := category } else e),
     calls := .updateMany :: s.calls })

/-! ## Requests and responses -/

/-- What a handler reads of a request: the caller, the path parameters, and
the parsed body (`undefined` when no body was parsed).  The field `userId` is
modelled from the spec: `middleware/authMiddleware` is not available, and it
attaches the user identifier of the caller to every request that reaches a
handler. -/
structure Request where
  userId : String
  id : String
  oldCategory : String
  body : JsVal

/-- Body of a response. -/
inductive Body where
  | expenses (es : List Expense)
  | expense (e : Option Expense)
  | msg (text : String)
  | message (text : String)
  | text (text : String)

/-- A response that was sent. -/
structure Response where
  status : Nat
  body : Body

/-- How a handler ends: with a response, or with an exception that nothing
in the handler caught (the promise of the handler rejects; the handler has
sent no response). -/
inductive Outcome where
  | responded (r : Response)
  | uncaught (e : JsError)

/-- The block `try { ... } catch (err) { res.status(500).send('Server Error') }`
around the body of a handler. -/
def tryCatch (block : Except JsError Response × Store) : Outcome × Store :=
  match block with
  | (.ok r, s) => (.responded r, s)
  | (.error _, s) => (.responded ⟨500, .text "Server Error"⟩, s)

/-! ## The handlers -/

/-- The handler `getExpenses`. -/
def getExpenses (s : Store) (req : Request) : Outcome × Store :=
  tryCatch (
    let (expenses, s) := s.find req.userId
    (.ok ⟨200, .expenses expenses⟩, s))

/-- The handler `addExpense`. -/
def addExpense (s : Store) (req : Request) : Outcome × Store :=
  match destructure req.body with
  | .error e => (.uncaught e, s)
  | .ok body =>
    let title := body "title"
    let amount := body "amount"
    let category := body "category"
    let date := body "date"
    tryCatch (
      let (expense, s) := s.save req.userId title amount category date
      (.ok ⟨200, .expense (some expense)⟩, s))

/-- The object `expenseFields` of `updateExpense`: a key is set when the value
of the payload is truthy. -/
def expenseFields (title amount category date : JsVal) : ExpenseFields :=
  { title := if title.truthy then some title else none
    amount := if amount.truthy then some amount else none
    category := if category.truthy then some category else none
    date := if date.truthy then some date else none }

/-- The handler `updateExpense`. -/
def updateExpense (s : Store) (req : Request) : Outcome × Store :=
  match destructure req.body with
  | .error e => (.uncaught e, s)
  | .ok body =>
    let fields := expenseFields (body "title") (body "amount") (body "category") (body "date")
    tryCatch (
      match s.findById req.id with
      | (.error e, s) => (.error e, s)
      | (.ok none, s) => (.ok ⟨404, .msg "Expense not found"⟩, s)
      | (.ok (some expense), s) =>
        if expense.user ≠ req.userId then (.ok ⟨401, .msg "Not authorized"⟩, s)
        else
          match s.findByIdAndUpdate req.id fields with
          | (.error e, s) => (.error e, s)
          | (.ok expense, s) => (.ok ⟨200, .expense expense⟩, s))

/-- The handler `deleteExpense`. -/
def deleteExpense (s : Store) (req : Request) : Outcome × Store :=
  tryCatch (
    match s.findById req.id with
    | (.error e, s) => (.error e, s)
    | (.ok none, s) => (.ok ⟨404, .msg "Expense not found"⟩, s)
    | (.ok (some expense), s) =>
      if expense.user ≠ req.userId then (.ok ⟨401, .msg "Not authorized"⟩, s)
      else
        match s.findByIdAndDelete req.id with
        | (.error e, s) => (.error e, s)
        | (.ok _, s) => (.ok ⟨200, .msg "Expense removed"⟩, s))

/-- The test `!newCategory || newCategory.trim() === ''` of
`updateCategory`; the call of `trim` is made only on a truthy value. -/
def newCategoryIsBlank (newCategory : JsVal) : Except JsError Bool :=
  if !newCategory.truthy then .ok true
  else
    match newCategory.trim with
    | .error e => .error e
    | .ok t => .ok (t.data = [])

/-- The pattern of the filter of `updateCategory`:
the regular expression built from `^`, the old category as it is, and `$`,
with the flag `i`. -/
def categoryPattern (oldCategory : String) : Except JsError RegExp :=
  RegExp.new ("^" ++ oldCategory ++ "$") "i"

/-- The handler `updateCategory`. -/
def updateCategory (s : Store) (req : Request) : Outcome × Store :=
  let oldCategory := req.oldCategory
  match destructure req.body with
  | .error e => (.uncaught e, s)
  | .ok body =>
    let newCategory := body "newCategory"
    match newCategoryIsBlank newCategory with
    | .error e => (.uncaught e, s)
    | .ok true => (.responded ⟨400, .message "New category name is required."⟩, s)
    | .ok false =>
      tryCatch (
        match categoryPattern oldCategory with
        | .error e => (.error e, s)
        | .ok re =>
          let (matchedCount, s) := s.updateMany req.userId re newCategory
          if matchedCount = 0 then
            (.ok ⟨404, .message ("No expenses found with category \x27" ++ oldCategory
              ++ "\x27 for this user.")⟩, s)
          else
            (.ok ⟨200, .message ("Category \x27" ++ oldCategory
              ++ "\x27 was successfully updated to \x27" ++ newCategory.toJsString
              ++ "\x27.")⟩, s))

/-! ## Notions used in the statements -/

/-- Equality of two strings ignoring letter case, character by character. -/
def equalIgnoringCase (a b : String) : Bool :=
  a.data.map Char.toUpper = b.data.map Char.toUpper

/-- The terms after the opening anchor: the characters of the text, then the
closing anchor. -/
def literalTail (w : List Char) : Regex :=
  w.foldr (fun c r => .seq (.char c) r) (.seq .eol .empty)

/-- The pattern that a text of letters and digits stands for: the text itself
between the two anchors. -/
def literalPattern (w : List Char) : Regex :=
  .seq .bol (literalTail w)

/-- Order of two texts by code points, a proper beginning of a text before the
text. -/
def codePointsLe : List Char → List Char → Prop
  | [], _ => True
  | _ :: _, [] => False
  | c :: cs, d :: ds => c.toNat < d.toNat ∨ (c = d ∧ codePointsLe cs ds)

/-- Rank of the kind of a value as a date: missing or null, number, string,
object, array, boolean. -/
def kindRank : JsVal → Nat
  | .undefined => 0
  | .null => 0
  | .num _ => 1
  | .str _ => 2
  | .obj _ => 3
  | .arr _ => 4
  | .bool _ => 5

/-- The date `a` is greater than or equal to the date `b`.  Two timestamps
given as numbers compare by value; two given as strings compare by code
points (which is the order in time of ISO dates); `true` is above `false`;
values of different kinds compare by kind, and two values of another kind are
equal as dates. -/
def dateAtLeast : JsVal → JsVal → Prop
  | .num x, .num y => y ≤ x
  | .str p, .str q => codePointsLe q.data p.data
  | .bool x, .bool y => y = true → x = true
  | a, b => kindRank b ≤ kindRank a

/-- Identifiers are keys of the collection: no two documents share one. -/
def Store.WellFormed (s : Store) : Prop := (s.docs.map (fun e => e._id)).Nodup

/-- A body was parsed: `req.body` is neither `undefined` nor `null`. -/
def Request.hasPayload (req : Request) : Prop :=
  req.body ≠ .undefined ∧ req.body ≠ .null

/-! ## Sample data -/

/-- The expense of the scenario: caller `C1`, title Lunch, amount 12,
category Food. -/
def lunch : Expense := ⟨1, "C1", .str "Lunch", .num 12, .str "Food", .num 1700000000000⟩

/-- A collection that holds the expense of the scenario and nothing else. -/
def lunchStore : Store := ⟨[lunch], []⟩

/-- Four expenses in the order of their insertion: three of caller `C1` with
the dates 2, 5 and 1, and one of caller `C2` with the date 9. -/
def datedStore : Store :=
  ⟨[⟨1, "C1", .str "a", .num 1, .str "Food", .num 2⟩,
    ⟨2, "C2", .str "b", .num 1, .str "Food", .num 9⟩,
    ⟨3, "C1", .str "c", .num 1, .str "Food", .num 5⟩,
    ⟨4, "C1", .str "d", .num 1, .str "Food", .num 1⟩], []⟩

/-- A request of `caller` with path parameter `id`, old category `old` and the
given body. -/
def mkRequest (caller : String) (id : String) (old : String) (body : JsVal) : Request :=
  ⟨caller, id, old, body⟩

/-! ## Lemmas: strings -/

theorem trimChars_eq_nil_iff (cs : List Char) :
    trimChars cs = [] ↔ ∀ c ∈ cs, isWhiteSpace c = true := by
  unfold trimChars
  rw [List.reverse_eq_nil_iff, List.dropWhile_eq_nil_iff]
  constructor
  · intro h
    have h2 : cs.dropWhile isWhiteSpace = [] := by
      cases hd : cs.dropWhile isWhiteSpace with
      | nil => rfl
      | cons x xs =>
        have hx : isWhiteSpace x = true := h x (by simp [hd])
        have hn := List.head_dropWhile_not isWhiteSpace cs (by simp [hd])
        simp [hd, hx] at hn
    exact List.dropWhile_eq_nil_iff.mp h2
  · intro h x hx
    rw [List.dropWhile_eq_nil_iff.mpr h] at hx
    simp at hx

/-! ## Lemmas: the fuel of the parser and of the matcher is enough -/

theorem applyQuantifier_length (a : Regex) (ts : List Tok) :
    (applyQuantifier a ts).2.length ≤ ts.length := by
  unfold applyQuantifier
  split <;> simp <;> omega

theorem parse_rest_length : ∀ (f : Nat) (ts : List Tok) (r : Regex) (rest : List Tok),
    (parseDisjunction f ts = .ok (r, rest) → rest.length ≤ ts.length)
    ∧ (parseAlternative f ts = .ok (r, rest) → rest.length ≤ ts.length)
    ∧ (parseTerm f ts = .ok (r, rest) → rest.length < ts.length) := by
  intro f
  induction f with
  | zero => intro ts r rest; simp [parseDisjunction, parseAlternative, parseTerm]
  | succ f ih =>
    intro ts r rest
    refine ⟨?_, ?_, ?_⟩
    · intro h
      simp only [parseDisjunction] at h
      cases hA : parseAlternative f ts with
      | error e => simp [hA] at h
      | ok p =>
        obtain ⟨a, rest1⟩ := p
        have h1 := (ih ts a rest1).2.1 hA
        simp only [hA] at h
        split at h
        · simp at h
        · next a2 rest2 heq =>
          cases heq
          split at h
          · simp at h
          · next d rest3 hD =>
            have h2 := (ih rest2 d rest3).1 hD
            simp only [Except.ok.injEq, Prod.mk.injEq] at h
            obtain ⟨_, rfl⟩ := h
            simp at h1; omega
        · next a2 rest2 _ heq =>
          cases heq
          simp only [Except.ok.injEq, Prod.mk.injEq] at h
          obtain ⟨_, rfl⟩ := h
          exact h1
    · intro h
      cases ts with
      | nil =>
        simp only [parseAlternative, Except.ok.injEq, Prod.mk.injEq] at h
        obtain ⟨_, rfl⟩ := h
        simp
      | cons t ts2 =>
        by_cases hb : t = .bar
        · subst hb
          simp only [parseAlternative, Except.ok.injEq, Prod.mk.injEq] at h
          obtain ⟨_, rfl⟩ := h
          simp
        · by_cases hr : t = .rparen
          · subst hr
            simp only [parseAlternative, Except.ok.injEq, Prod.mk.injEq] at h
            obtain ⟨_, rfl⟩ := h
            simp
          · rw [parseAlternative] at h
            · cases hT : parseTerm f (t :: ts2) with
              | error e => simp [hT] at h
              | ok p =>
                obtain ⟨t1, rest1⟩ := p
                have h1 := (ih (t :: ts2) t1 rest1).2.2 hT
                simp only [hT] at h
                cases hA : parseAlternative f rest1 with
                | error e => simp [hA] at h
                | ok q =>
                  obtain ⟨a, rest2⟩ := q
                  have h2 := (ih rest1 a rest2).2.1 hA
                  simp only [hA, Except.ok.injEq, Prod.mk.injEq] at h
                  obtain ⟨_, rfl⟩ := h
                  omega
            · intro hx; cases hx
            · intro rest0 hx; cases hx; exact hb rfl
            · intro rest0 hx; cases hx; exact hr rfl
    · intro h
      cases ts with
      | nil => simp [parseTerm] at h
      | cons t ts2 =>
        cases t with
        | caret =>
          simp only [parseTerm, Except.ok.injEq, Prod.mk.injEq] at h
          obtain ⟨_, rfl⟩ := h; simp
        | dollar =>
          simp only [parseTerm, Except.ok.injEq, Prod.mk.injEq] at h
          obtain ⟨_, rfl⟩ := h; simp
        | lit c =>
          simp only [parseTerm, Except.ok.injEq] at h
          have := applyQuantifier_length (.char c) ts2
          rw [h] at this; simp at this ⊢; omega
        | dot =>
          simp only [parseTerm, Except.ok.injEq] at h
          have := applyQuantifier_length .any ts2
          rw [h] at this; simp at this ⊢; omega
        | lparen =>
          by_cases hq : ∃ ts3, ts2 = .quest :: ts3
          · obtain ⟨ts3, rfl⟩ := hq
            simp [parseTerm] at h
          · rw [parseTerm] at h
            · cases hD : parseDisjunction f ts2 with
              | error e => simp [hD] at h
              | ok p =>
                obtain ⟨d, rest1⟩ := p
                have h1 := (ih ts2 d rest1).1 hD
                simp only [hD] at h
                split at h
                · simp at h
                · next d2 rest2 heq =>
                  cases heq
                  simp only [Except.ok.injEq] at h
                  have := applyQuantifier_length d rest2
                  rw [h] at this; simp at this h1 ⊢; omega
                · simp at h
            · intro ts3 hx; cases hx; exact hq ⟨ts3, rfl⟩
        | _ => simp [parseTerm] at h

theorem parse_fuel_succ : ∀ (f : Nat) (ts : List Tok),
    (3 * ts.length + 3 ≤ f → parseDisjunction (f + 1) ts = parseDisjunction f ts)
    ∧ (3 * ts.length + 2 ≤ f → parseAlternative (f + 1) ts = parseAlternative f ts)
    ∧ (3 * ts.length + 1 ≤ f → parseTerm (f + 1) ts = parseTerm f ts) := by
  intro f
  induction f with
  | zero => intro ts; refine ⟨?_, ?_, ?_⟩ <;> intro h <;> omega
  | succ f ih =>
    intro ts
    refine ⟨?_, ?_, ?_⟩
    · intro hf
      have hA := (ih ts).2.1 (by omega)
      rw [parseDisjunction, parseDisjunction, hA]
      cases hres : parseAlternative f ts with
      | error e => rfl
      | ok p =>
        obtain ⟨a, rest⟩ := p
        have hlen := (parse_rest_length f ts a rest).2.1 hres
        cases rest with
        | nil => rfl
        | cons t rest2 =>
          by_cases hb : t = .bar
          · subst hb
            simp only [List.length_cons] at hlen
            have hD := (ih rest2).1 (by omega)
            simp only [hD]
          · cases t <;> first | rfl | exact absurd rfl hb
    · intro hf
      cases ts with
      | nil => simp [parseAlternative]
      | cons t ts2 =>
        by_cases hb : t = .bar
        · subst hb; simp [parseAlternative]
        · by_cases hr : t = .rparen
          · subst hr; simp [parseAlternative]
          · have hT := (ih (t :: ts2)).2.2 (by omega)
            rw [parseAlternative, parseAlternative, hT]
            · cases hres : parseTerm f (t :: ts2) with
              | error e => rfl
              | ok p =>
                obtain ⟨t1, rest⟩ := p
                have hlen := (parse_rest_length f (t :: ts2) t1 rest).2.2 hres
                simp only [List.length_cons] at hlen hf
                have hA := (ih rest).2.1 (by omega)
                simp only [hA]
            · intro hx; cases hx
            · intro rest0 hx; cases hx; exact hb rfl
            · intro rest0 hx; cases hx; exact hr rfl
            · intro hx; cases hx
            · intro rest0 hx; cases hx; exact hb rfl
            · intro rest0 hx; cases hx; exact hr rfl
    · intro hf
      cases ts with
      | nil => simp [parseTerm]
      | cons t ts2 =>
        cases t with
        | lparen =>
          by_cases hq : ∃ ts3, ts2 = .quest :: ts3
          · obtain ⟨ts3, rfl⟩ := hq
            simp [parseTerm]
          · simp only [List.length_cons] at hf
            have hD := (ih ts2).1 (by omega)
            rw [parseTerm, parseTerm, hD]
            · intro ts3 hx; cases hx; exact hq ⟨ts3, rfl⟩
            · intro ts3 hx; cases hx; exact hq ⟨ts3, rfl⟩
        | _ => simp [parseTerm]

/-- The fuel that `RegExp.new` hands to the parser is enough: more fuel gives
the same result. -/
theorem parseDisjunction_fuel (ts : List Tok) (k : Nat) :
    parseDisjunction (3 * ts.length + 3 + k) ts = parseDisjunction (3 * ts.length + 3) ts := by
  induction k with
  | zero => rfl
  | succ k ih =>
    rw [← ih]
    exact (parse_fuel_succ (3 * ts.length + 3 + k) ts).1 (by omega)


theorem starIter_fuel_succ (step : Pos → List Pos) : ∀ (f : Nat) (p : Pos),
    p.2.length + 1 ≤ f → starIter step (f + 1) p = starIter step f p := by
  intro f
  induction f with
  | zero => intro p h; omega
  | succ f ih =>
    intro p hf
    rw [starIter, starIter]
    congr 1
    rw [List.flatMap_def, List.flatMap_def]
    congr 1
    apply List.map_congr_left
    intro q hq
    have hlt : q.2.length < p.2.length := by
      simpa using (List.mem_filter.mp hq).2
    exact ih q (by omega)

/-- The fuel that `Regex.run` hands to a repetition is enough: more fuel gives
the same positions. -/
theorem starIter_fuel (step : Pos → List Pos) (p : Pos) (k : Nat) :
    starIter step (p.2.length + 1 + k) p = starIter step (p.2.length + 1) p := by
  induction k with
  | zero => rfl
  | succ k ih =>
    rw [← ih]
    exact starIter_fuel_succ step (p.2.length + 1 + k) p (by omega)

/-! ## Lemmas: the pattern of a text of letters and digits -/

theorem classify_alphanum (c : Char) (h : c.isAlphanum = true) : classify c = .lit c := by
  have h1 : c ≠ '(' := by rintro rfl; exact absurd h (by decide)
  have h2 : c ≠ ')' := by rintro rfl; exact absurd h (by decide)
  have h3 : c ≠ '.' := by rintro rfl; exact absurd h (by decide)
  have h4 : c ≠ '^' := by rintro rfl; exact absurd h (by decide)
  have h5 : c ≠ '$' := by rintro rfl; exact absurd h (by decide)
  have h6 : c ≠ '|' := by rintro rfl; exact absurd h (by decide)
  have h7 : c ≠ '*' := by rintro rfl; exact absurd h (by decide)
  have h8 : c ≠ '+' := by rintro rfl; exact absurd h (by decide)
  have h9 : c ≠ '?' := by rintro rfl; exact absurd h (by decide)
  have h10 : c ≠ '[' := by rintro rfl; exact absurd h (by decide)
  have h11 : c ≠ ']' := by rintro rfl; exact absurd h (by decide)
  have h12 : c.toNat ≠ 123 := by
    intro hc
    have : c = Char.ofNat 123 := by rw [← hc, Char.ofNat_toNat]
    rw [this] at h; exact absurd h (by decide)
  have h13 : c.toNat ≠ 125 := by
    intro hc
    have : c = Char.ofNat 125 := by rw [← hc, Char.ofNat_toNat]
    rw [this] at h; exact absurd h (by decide)
  simp [classify, h1, h2, h3, h4, h5, h6, h7, h8, h9, h10, h11, h12, h13]

theorem tokenize_alphanum (w rest : List Char) (h : ∀ c ∈ w, c.isAlphanum = true) :
    tokenize false (w ++ rest) = w.map Tok.lit ++ tokenize false rest := by
  induction w with
  | nil => rfl
  | cons c w ih =>
    have hc : c.isAlphanum = true := h c (by simp)
    have hb : c ≠ '\\' := by rintro rfl; exact absurd hc (by decide)
    simp [tokenize, hb, classify_alphanum c hc, ih (fun d hd => h d (by simp [hd]))]

theorem parseAlternative_literal (w : List Char) :
    ∀ fuel, w.length + 2 ≤ fuel →
      parseAlternative fuel (w.map Tok.lit ++ [Tok.dollar]) = .ok (literalTail w, []) := by
  induction w with
  | nil =>
    intro fuel hf
    obtain ⟨f, rfl⟩ : ∃ f, fuel = f + 2 := ⟨fuel - 2, by simp at hf; omega⟩
    simp [parseAlternative, parseTerm, literalTail]
  | cons c w ih =>
    intro fuel hf
    obtain ⟨f, rfl⟩ : ∃ f, fuel = f + 2 := ⟨fuel - 2, by simp at hf; omega⟩
    have hrec := ih (f + 1) (by simp at hf; omega)
    have hq : applyQuantifier (.char c) (w.map Tok.lit ++ [Tok.dollar])
        = (.char c, w.map Tok.lit ++ [Tok.dollar]) := by
      cases w <;> simp [applyQuantifier]
    simp [parseAlternative, parseTerm, hq, hrec, literalTail]

theorem parseDisjunction_literal (w : List Char) (fuel : Nat) (hf : w.length + 4 ≤ fuel) :
    parseDisjunction fuel (Tok.caret :: (w.map Tok.lit ++ [Tok.dollar]))
      = .ok (literalPattern w, []) := by
  obtain ⟨f, rfl⟩ : ∃ f, fuel = f + 3 := ⟨fuel - 3, by omega⟩
  have hrec := parseAlternative_literal w (f + 1) (by omega)
  simp [parseDisjunction, parseAlternative, parseTerm, hrec, literalPattern, literalTail]

theorem categoryPattern_alphanum (old : String)
    (h : ∀ c ∈ old.data, c.isAlphanum = true) :
    categoryPattern old = .ok ⟨literalPattern old.data, true⟩ := by
  have hdata : ("^" ++ old ++ "$").data = '^' :: (old.data ++ ['$']) := by
    simp [String.data_append]
  have htok : tokenize false ('^' :: (old.data ++ ['$']))
      = Tok.caret :: (old.data.map Tok.lit ++ [Tok.dollar]) := by
    have h1 := tokenize_alphanum old.data ['$'] h
    simp [tokenize, classify, h1]
  unfold categoryPattern RegExp.new
  simp only [hdata, htok]
  rw [parseDisjunction_literal old.data _ (by simp; omega)]
  simp

/-! ## Lemmas: matching the pattern of a text -/

theorem run_literalTail (w : List Char) :
    ∀ (b : Bool) (inp : List Char),
      ((literalTail w).run true (b, inp)).isEmpty = false
        ↔ inp.map Char.toUpper = w.map Char.toUpper := by
  induction w with
  | nil =>
    intro b inp
    cases inp <;> simp [literalTail, Regex.run]
  | cons c w ih =>
    intro b inp
    cases inp with
    | nil => simp [literalTail, Regex.run]
    | cons d rest =>
      have ih2 := ih false rest
      simp only [literalTail] at ih2
      by_cases hdc : d.toUpper = c.toUpper
      · simp [literalTail, Regex.run, canonicalize, hdc, ih2]
      · simp [literalTail, Regex.run, canonicalize, hdc]

theorem run_literalPattern_inner (w : List Char) (inp : List Char) :
    ((literalPattern w).run true (false, inp)) = [] := by
  simp [literalPattern, Regex.run]

theorem test_literalPattern (w : List Char) (input : String) :
    RegExp.test ⟨literalPattern w, true⟩ input
      = decide (input.data.map Char.toUpper = w.map Char.toUpper) := by
  have hfirst : (literalPattern w).run true (true, input.data)
      = (literalTail w).run true (true, input.data) := by
    simp [literalPattern, literalTail, Regex.run]
  have hrest : ∀ rest : List Char,
      (!((literalPattern w).run true (false, rest)).isEmpty) = false := by
    intro rest; simp [run_literalPattern_inner]
  have hany : ((input.data.tails.tail.map (fun rest => (false, rest))).any
      fun p => !((literalPattern w).run true p).isEmpty) = false := by
    rw [List.any_eq_false]
    intro p hp
    obtain ⟨rest, _, rfl⟩ := List.mem_map.mp hp
    simp [hrest rest]
  unfold RegExp.test startPositions
  simp only [List.any_cons, hfirst, hany, Bool.or_false]
  by_cases hm : input.data.map Char.toUpper = w.map Char.toUpper
  · have := (run_literalTail w true input.data).mpr hm
    simp [this, hm]
  · have : ((literalTail w).run true (true, input.data)).isEmpty = true := by
      by_contra hne
      exact hm ((run_literalTail w true input.data).mp (by simpa using hne))
    simp [this, hm]

/-- For an old category of letters and digits the filter of `updateCategory`
is built, and it selects a stored category exactly when the two are equal
ignoring letter case. -/
theorem categoryPattern_test_alphanum (old : String)
    (h : ∀ c ∈ old.data, c.isAlphanum = true) :
    ∃ re, categoryPattern old = .ok re ∧ ∀ c : String, re.test c = equalIgnoringCase c old := by
  refine ⟨_, categoryPattern_alphanum old h, fun c => ?_⟩
  rw [test_literalPattern]; rfl

/-! ## Lemmas: requests and the collection -/

theorem destructure_of_hasPayload (req : Request) (h : req.hasPayload) :
    destructure req.body = .ok req.body.getProp := by
  obtain ⟨h1, h2⟩ := h
  unfold destructure
  cases hb : req.body <;> simp_all

theorem lexLe_total : ∀ a b : List Int, lexLe a b = true ∨ lexLe b a = true
  | [], _ => by simp [lexLe]
  | _ :: _, [] => by simp [lexLe]
  | a :: as, b :: bs => by
    rcases lt_trichotomy a b with hlt | heq | hgt
    · left; simp [lexLe, hlt]
    · subst heq
      rcases lexLe_total as bs with h | h
      · left; simp [lexLe, h]
      · right; simp [lexLe, h]
    · right; simp [lexLe, hgt]

theorem lexLe_trans : ∀ a b c : List Int,
    lexLe a b = true → lexLe b c = true → lexLe a c = true
  | [], _, _ => by simp [lexLe]
  | _ :: _, [], _ => by simp [lexLe]
  | _ :: _, _ :: _, [] => by simp [lexLe]
  | a :: as, b :: bs, c :: cs => by
    simp only [lexLe, Bool.or_eq_true, Bool.and_eq_true, decide_eq_true_eq, beq_iff_eq]
    intro h1 h2
    rcases h1 with h1 | ⟨h1, h1x⟩
    · rcases h2 with h2 | ⟨h2, _⟩
      · left; omega
      · left; omega
    · rcases h2 with h2 | ⟨h2, h2x⟩
      · left; omega
      · right; exact ⟨by omega, lexLe_trans as bs cs h1x h2x⟩

theorem lexLe_codePoints : ∀ q p : List Char,
    lexLe (q.map (fun c => (c.toNat : Int))) (p.map (fun c => (c.toNat : Int))) = true
      ↔ codePointsLe q p
  | [], _ => by simp [lexLe, codePointsLe]
  | _ :: _, [] => by simp [lexLe, codePointsLe]
  | c :: cs, d :: ds => by
    have hinj : ((c.toNat : Int) = (d.toNat : Int)) ↔ c = d := by
      constructor
      · intro h
        have h2 : c.toNat = d.toNat := by exact_mod_cast h
        exact Char.ext (UInt32.toNat.inj h2)
      · rintro rfl; rfl
    simp only [List.map_cons, lexLe, Bool.or_eq_true, Bool.and_eq_true, decide_eq_true_eq,
      beq_iff_eq, codePointsLe, hinj, lexLe_codePoints cs ds, Nat.cast_lt]

/-- The comparison that `sort({ date: -1 })` makes is the order of dates used
in the statements. -/
theorem dateDesc_iff (a b : Expense) : dateDesc a b ↔ dateAtLeast a.date b.date := by
  unfold dateDesc
  cases ha : a.date with
  | num x =>
    cases hb : b.date <;> simp [JsVal.sortKey, lexLe, dateAtLeast, kindRank]
    omega
  | bool x =>
    cases hb : b.date with
    | bool y => cases x <;> cases y <;> simp [JsVal.sortKey, lexLe, dateAtLeast]
    | _ => simp [JsVal.sortKey, lexLe, dateAtLeast, kindRank]
  | _ =>
    cases hb : b.date <;>
      simp [JsVal.sortKey, lexLe, dateAtLeast, kindRank, lexLe_codePoints]

theorem find?_id_of_mem (docs : List Expense) (hnd : (docs.map (fun e => e._id)).Nodup)
    (e : Expense) (he : e ∈ docs) :
    docs.find? (fun x => x._id = e._id) = some e := by
  induction docs with
  | nil => simp at he
  | cons d ds ih =>
    simp only [List.map_cons, List.nodup_cons, List.mem_map, not_exists, not_and] at hnd
    rcases List.mem_cons.mp he with rfl | hmem
    · simp
    · have hne : ¬ d._id = e._id := fun h => hnd.1 e hmem h.symm
      simp [List.find?_cons, hne, ih hnd.2 hmem]

theorem find?_id_none (docs : List Expense) (id : Nat) (h : ∀ e ∈ docs, e._id ≠ id) :
    docs.find? (fun x => x._id = id) = none := by
  simp only [List.find?_eq_none, decide_eq_true_eq]
  exact h

theorem le_foldr_max (l : List Nat) : ∀ n ∈ l, n ≤ l.foldr max 0 := by
  induction l with
  | nil => simp
  | cons a l ih =>
    intro n hn
    rcases List.mem_cons.mp hn with rfl | h
    · simp
    · have := ih n h
      simp only [List.foldr_cons]
      omega

theorem freshId_fresh (s : Store) : ∀ e ∈ s.docs, e._id ≠ s.freshId := by
  intro e he
  have := le_foldr_max (s.docs.map (fun e => e._id)) e._id (List.mem_map.mpr ⟨e, he, rfl⟩)
  unfold Store.freshId
  omega

theorem find?_id_map_update (docs : List Expense) (hnd : (docs.map (fun e => e._id)).Nodup)
    (e : Expense) (he : e ∈ docs) (f : Expense → Expense) (hf : ∀ x, (f x)._id = x._id) :
    (docs.map (fun x => if x._id = e._id then f x else x)).find? (fun x => x._id = e._id)
      = some (f e) := by
  have hpred : ∀ x : Expense,
      decide ((if x._id = e._id then f x else x)._id = e._id) = decide (x._id = e._id) := by
    intro x
    by_cases hx : x._id = e._id <;> simp [hx, hf]
  rw [List.find?_map]
  have hcomp : ((fun x : Expense => decide (x._id = e._id))
      ∘ fun x => if x._id = e._id then f x else x) = fun x => decide (x._id = e._id) := by
    funext x; exact hpred x
  rw [hcomp, find?_id_of_mem docs hnd e he]
  simp

theorem map_update_eq (docs : List Expense) (hnd : (docs.map (fun e => e._id)).Nodup)
    (e : Expense) (he : e ∈ docs) (f : Expense → Expense) :
    docs.map (fun x => if x._id = e._id then f x else x)
      = docs.map (fun x => if x._id = e._id then f e else x) := by
  apply List.map_congr_left
  intro x hx
  by_cases hxe : x._id = e._id
  · have hx2 := find?_id_of_mem docs hnd x hx
    rw [hxe, find?_id_of_mem docs hnd e he] at hx2
    cases hx2
    rfl
  · simp [hxe]

/-- The filter of `updateCategory` selects documents of the caller only. -/
theorem findQuery_owner (user : String) (re : RegExp) (e : Expense)
    (h : findQuery user re e = true) : e.user = user := by
  simp only [findQuery, Bool.and_eq_true, decide_eq_true_eq] at h
  exact h.1

/-! ## Lemmas: `updateCategory` past its validation -/

theorem newCategoryIsBlank_of_nonblank (n : String) (h : trimChars n.data ≠ []) :
    newCategoryIsBlank (.str n) = .ok false := by
  have hn : n.data ≠ [] := by
    intro h0; rw [h0] at h; exact h rfl
  simp [newCategoryIsBlank, JsVal.truthy, JsVal.trim, hn, h]

theorem hasPayload_of_getProp_str (req : Request) (key n : String)
    (h : req.body.getProp key = .str n) : req.hasPayload := by
  constructor <;> intro hb <;> rw [hb] at h <;> simp [JsVal.getProp] at h

/-- With a non-blank string as new name and an old category that does not
compile, `updateCategory` answers 500 and the store is as before. -/
theorem updateCategory_of_bad_pattern (s : Store) (req : Request) (n : String) (e : JsError)
    (hbody : req.body.getProp "newCategory" = .str n) (hn : trimChars n.data ≠ [])
    (hpat : categoryPattern req.oldCategory = .error e) :
    updateCategory s req = (.responded ⟨500, .text "Server Error"⟩, s) := by
  have hd := destructure_of_hasPayload req (hasPayload_of_getProp_str req _ n hbody)
  simp [updateCategory, hd, hbody, newCategoryIsBlank_of_nonblank n hn, hpat, tryCatch]

/-- With a non-blank string as new name and an old category that compiles,
`updateCategory` makes one `updateMany` call: the documents selected by the
filter get the new category, the others stay, and the answer is 404 when the
filter selected nothing and 200 otherwise. -/
theorem updateCategory_of_pattern (s : Store) (req : Request) (n : String) (re : RegExp)
    (hbody : req.body.getProp "newCategory" = .str n) (hn : trimChars n.data ≠ [])
    (hpat : categoryPattern req.oldCategory = .ok re) :
    updateCategory s req
      = (if (s.docs.filter (findQuery req.userId re)).length = 0 then
          .responded ⟨404, .message ("No expenses found with category \x27" ++ req.oldCategory
            ++ "\x27 for this user.")⟩
        else
          .responded ⟨200, .message ("Category \x27" ++ req.oldCategory
            ++ "\x27 was successfully updated to \x27" ++ n ++ "\x27.")⟩,
        { docs := s.docs.map (fun e =>
            if findQuery req.userId re e then { e with category := .str n } else e),
          calls := .updateMany :: s.calls }) := by
  have hd := destructure_of_hasPayload req (hasPayload_of_getProp_str req _ n hbody)
  simp only [updateCategory, hd, hbody, newCategoryIsBlank_of_nonblank n hn, hpat,
    Store.updateMany, JsVal.toJsString]
  split <;> simp [tryCatch]

/-! ## Lemmas: identifiers stay unique -/

theorem map_id_of_update (docs : List Expense) (f : Expense → Expense)
    (hf : ∀ x, (f x)._id = x._id) :
    (docs.map f).map (fun e => e._id) = docs.map (fun e => e._id) := by
  rw [List.map_map]
  apply List.map_congr_left
  intro x _
  exact hf x

theorem getExpenses_wellFormed (s : Store) (req : Request) (h : s.WellFormed) :
    (getExpenses s req).2.WellFormed := h

theorem addExpense_wellFormed (s : Store) (req : Request) (h : s.WellFormed) :
    (addExpense s req).2.WellFormed := by
  unfold addExpense
  cases hd : destructure req.body with
  | error e => exact h
  | ok body =>
    simp only [Store.save, tryCatch, Store.WellFormed, List.map_append, List.map_cons,
      List.map_nil]
    unfold Store.WellFormed at h
    rw [List.nodup_append]
    refine ⟨h, List.nodup_singleton _, ?_⟩
    intro a ha hb
    obtain ⟨x, hx, rfl⟩ := List.mem_map.mp ha
    exact freshId_fresh s x hx (List.mem_singleton.mp hb)

theorem findById_of_cast (s : Store) (id : String) (k : Nat)
    (hk : castObjectId id = some k) :
    s.findById id
      = (.ok (s.docs.find? (fun e => e._id = k)), { s with calls := .findById :: s.calls }) := by
  simp [Store.findById, hk]

theorem findById_of_no_cast (s : Store) (id : String) (hk : castObjectId id = none) :
    s.findById id = (.error .castError, { s with calls := .findById :: s.calls }) := by
  simp [Store.findById, hk]

theorem findByIdAndUpdate_of_cast (s : Store) (id : String) (k : Nat) (fields : ExpenseFields)
    (hk : castObjectId id = some k) :
    s.findByIdAndUpdate id fields
      = (.ok ((s.docs.map (fun e => if e._id = k then e.set fields else e)).find?
            (fun e => e._id = k)),
         { docs := s.docs.map (fun e => if e._id = k then e.set fields else e),
           calls := .findByIdAndUpdate :: s.calls }) := by
  simp [Store.findByIdAndUpdate, hk]

theorem findByIdAndDelete_of_cast (s : Store) (id : String) (k : Nat)
    (hk : castObjectId id = some k) :
    s.findByIdAndDelete id
      = (.ok (s.docs.find? (fun e => e._id = k)),
         { docs := s.docs.filter (fun e => ¬ e._id = k),
           calls := .findByIdAndDelete :: s.calls }) := by
  simp [Store.findByIdAndDelete, hk]

theorem updateExpense_wellFormed (s : Store) (req : Request) (h : s.WellFormed) :
    (updateExpense s req).2.WellFormed := by
  unfold updateExpense
  cases hd : destructure req.body with
  | error e => exact h
  | ok body =>
    cases hk : castObjectId req.id with
    | none =>
      simp only [findById_of_no_cast s req.id hk, tryCatch]
      exact h
    | some k =>
      simp only [findById_of_cast s req.id k hk]
      cases hfind : s.docs.find? (fun e => e._id = k) with
      | none => exact h
      | some e =>
        by_cases hu : e.user = req.userId
        · simp only [hu, ne_eq, not_true_eq_false, ↓reduceIte,
            findByIdAndUpdate_of_cast _ req.id k _ hk, tryCatch, Store.WellFormed]
          rw [map_id_of_update]
          · exact h
          · intro x; split <;> rfl
        · simp only [ne_eq, hu, not_false_eq_true, ↓reduceIte, tryCatch]
          exact h

theorem deleteExpense_wellFormed (s : Store) (req : Request) (h : s.WellFormed) :
    (deleteExpense s req).2.WellFormed := by
  unfold deleteExpense
  cases hk : castObjectId req.id with
  | none =>
    simp only [findById_of_no_cast s req.id hk, tryCatch]
    exact h
  | some k =>
    simp only [findById_of_cast s req.id k hk]
    cases hfind : s.docs.find? (fun e => e._id = k) with
    | none => exact h
    | some e =>
      by_cases hu : e.user = req.userId
      · simp only [hu, ne_eq, not_true_eq_false, ↓reduceIte,
          findByIdAndDelete_of_cast _ req.id k hk, tryCatch, Store.WellFormed]
        exact List.Nodup.sublist (List.Sublist.map _ (List.filter_sublist _)) h
      · simp only [ne_eq, hu, not_false_eq_true, ↓reduceIte, tryCatch]
        exact h

theorem updateCategory_wellFormed (s : Store) (req : Request) (h : s.WellFormed) :
    (updateCategory s req).2.WellFormed := by
  unfold updateCategory
  cases hd : destructure req.body with
  | error e => exact h
  | ok body =>
    cases hb : newCategoryIsBlank (body "newCategory") with
    | error e => simpa [hb] using h
    | ok b =>
      cases b with
      | true => simpa [hb] using h
      | false =>
        cases hpat : categoryPattern req.oldCategory with
        | error e => simpa [hb, hpat, tryCatch] using h
        | ok re =>
          have hids : (s.docs.map (fun e => if findQuery req.userId re e then
              { e with category := body "newCategory" } else e)).map (fun e => e._id)
              = s.docs.map (fun e => e._id) :=
            map_id_of_update s.docs _ (fun x => by split <;> rfl)
          simp only [hb, hpat, Store.updateMany]
          split <;> simp only [tryCatch, Store.WellFormed, hids] <;> exact h

/-- Past the validation of `updateCategory` the new category is a string. -/
theorem newCategoryIsBlank_ok_false (v : JsVal) (h : newCategoryIsBlank v = .ok false) :
    ∃ n : String, v = .str n ∧ trimChars n.data ≠ [] := by
  cases v with
  | str n =>
    refine ⟨n, rfl, ?_⟩
    intro h0
    by_cases hn : n.data = []
    · simp [newCategoryIsBlank, JsVal.truthy, hn] at h
    · simp [newCategoryIsBlank, JsVal.truthy, hn, JsVal.trim, h0] at h
  | undefined => simp [newCategoryIsBlank, JsVal.truthy] at h
  | null => simp [newCategoryIsBlank, JsVal.truthy] at h
  | bool b => cases b <;> simp [newCategoryIsBlank, JsVal.truthy, JsVal.trim] at h
  | num k =>
    by_cases hk : k = 0 <;> simp [newCategoryIsBlank, JsVal.truthy, JsVal.trim, hk] at h
  | arr items => simp [newCategoryIsBlank, JsVal.truthy, JsVal.trim] at h
  | obj fields => simp [newCategoryIsBlank, JsVal.truthy, JsVal.trim] at h

/-! ## Theorems -/

/-- C1: a caller who is not the owner of a stored expense gets status 401 with
body `{msg: "Not authorized"}` from `updateExpense` (whatever the payload) and
from `deleteExpense`, and the documents of the store are left as they were. -/
theorem not_owner_is_refused (s : Store) (hwf : s.WellFormed) (e : Expense)
    (he : e ∈ s.docs) (req : Request) (hid : castObjectId req.id = some e._id)
    (hne : e.user ≠ req.userId) :
    (req.hasPayload →
        (updateExpense s req).1 = .responded ⟨401, .msg "Not authorized"⟩
          ∧ (updateExpense s req).2.docs = s.docs)
      ∧ (deleteExpense s req).1 = .responded ⟨401, .msg "Not authorized"⟩
      ∧ (deleteExpense s req).2.docs = s.docs
      ∧ e ∈ (deleteExpense s req).2.docs := by
  have hfind := find?_id_of_mem s.docs hwf e he
  have hf := findById_of_cast s req.id e._id hid
  refine ⟨fun hp => ?_, ?_, ?_, ?_⟩
  · simp [updateExpense, destructure_of_hasPayload req hp, hf, hfind, hne, tryCatch]
  · simp [deleteExpense, hf, hfind, hne, tryCatch]
  · simp [deleteExpense, hf, hfind, hne, tryCatch]
  · simpa [deleteExpense, hf, hfind, hne, tryCatch] using he

theorem not_owner_is_refused_witness :
    (updateExpense lunchStore (mkRequest "C2" "000000000000000000000001" "" (.obj [("title", .str "Dinner")]))).1
        = .responded ⟨401, .msg "Not authorized"⟩
      ∧ (updateExpense lunchStore
          (mkRequest "C2" "000000000000000000000001" "" (.obj [("title", .str "Dinner")]))).2.docs = [lunch]
      ∧ (deleteExpense lunchStore (mkRequest "C2" "000000000000000000000001" "" .undefined)).1
          = .responded ⟨401, .msg "Not authorized"⟩
      ∧ (deleteExpense lunchStore (mkRequest "C2" "000000000000000000000001" "" .undefined)).2.docs = [lunch] :=
  have hu := not_owner_is_refused lunchStore (by simp [Store.WellFormed, lunchStore]) lunch
    (by simp [lunchStore]) (mkRequest "C2" "000000000000000000000001" "" (.obj [("title", .str "Dinner")])) rfl
    (by decide)
  have hd := not_owner_is_refused lunchStore (by simp [Store.WellFormed, lunchStore]) lunch
    (by simp [lunchStore]) (mkRequest "C2" "000000000000000000000001" "" .undefined) rfl (by decide)
  ⟨(hu.1 (by simp [Request.hasPayload, mkRequest])).1,
   (hu.1 (by simp [Request.hasPayload, mkRequest])).2, hd.2.1, hd.2.2.1⟩

/-- C2: `getExpenses` answers 200 with a sequence that holds exactly the
expenses of the store owned by the caller, each as often as the store holds
it and none of another owner, ordered by date descending: every element has a
date greater than or equal to the date of every later element, of the next
one in particular, and for two dates that are numbers this is the order of
the numbers; the documents of the store are left as they were. -/
theorem getExpenses_own_newest_first (s : Store) (req : Request) :
    ∃ es, (getExpenses s req).1 = .responded ⟨200, .expenses es⟩
      ∧ es.Perm (s.docs.filter (fun e => e.user = req.userId))
      ∧ (∀ e ∈ es, e.user = req.userId)
      ∧ es.Pairwise (fun a b => dateAtLeast a.date b.date)
      ∧ es.Chain' (fun a b => dateAtLeast a.date b.date)
      ∧ es.Chain' (fun a b => ∀ x y : Int, a.date = .num x → b.date = .num y → y ≤ x)
      ∧ (getExpenses s req).2.docs = s.docs := by
  haveI : IsTotal Expense dateDesc :=
    ⟨fun a b => lexLe_total b.date.sortKey a.date.sortKey⟩
  haveI : IsTrans Expense dateDesc :=
    ⟨fun a b c hab hbc => lexLe_trans c.date.sortKey b.date.sortKey a.date.sortKey hbc hab⟩
  have hperm := List.perm_insertionSort dateDesc (s.docs.filter (fun e => e.user = req.userId))
  have hsorted := List.sorted_insertionSort dateDesc
    (s.docs.filter (fun e => e.user = req.userId))
  have hpair : ((s.docs.filter (fun e => e.user = req.userId)).insertionSort dateDesc).Pairwise
      (fun a b => dateAtLeast a.date b.date) :=
    List.Pairwise.imp (fun {a b} h => (dateDesc_iff a b).mp h) hsorted
  have hchain := List.Pairwise.chain' hpair
  refine ⟨_, rfl, hperm, ?_, hpair, hchain, ?_, rfl⟩
  · intro e he
    have := (hperm.mem_iff).mp he
    simpa using (List.mem_filter.mp this).2
  · refine List.Chain'.imp ?_ hchain
    intro a b h x y hx hy
    rw [hx, hy] at h
    exact h

theorem getExpenses_own_newest_first_witness :
    ∃ es, (getExpenses datedStore (mkRequest "C1" "" "" .undefined)).1
        = .responded ⟨200, .expenses es⟩
      ∧ es.map (fun e => e._id) = [3, 1, 4]
      ∧ es.map (fun e => e.date) = [.num 5, .num 2, .num 1]
      ∧ es.Chain' (fun a b => ∀ x y : Int, a.date = .num x → b.date = .num y → y ≤ x) := by
  obtain ⟨es, h1, _, _, _, _, h6, _⟩ :=
    getExpenses_own_newest_first datedStore (mkRequest "C1" "" "" .undefined)
  have h1b : Outcome.responded ⟨200, .expenses (datedStore.find "C1").1⟩
      = Outcome.responded ⟨200, .expenses es⟩ := h1
  simp only [Outcome.responded.injEq, Response.mk.injEq, Body.expenses.injEq, true_and] at h1b
  refine ⟨es, h1, ?_, ?_, h6⟩
  · rw [← h1b]; rfl
  · rw [← h1b]; rfl

/-- C7, as amended: for a path parameter that is a well-formed identifier
carried by no expense of the store, `updateExpense` (whatever the payload) and
`deleteExpense` answer 404 with body `{msg: "Expense not found"}` for every
caller, and the documents of the store are left as they were. -/
theorem unknown_id_is_not_found (s : Store) (req : Request) (k : Nat)
    (hcast : castObjectId req.id = some k) (hid : ∀ e ∈ s.docs, e._id ≠ k) :
    (req.hasPayload →
        (updateExpense s req).1 = .responded ⟨404, .msg "Expense not found"⟩
          ∧ (updateExpense s req).2.docs = s.docs)
      ∧ (deleteExpense s req).1 = .responded ⟨404, .msg "Expense not found"⟩
      ∧ (deleteExpense s req).2.docs = s.docs := by
  have hfind := find?_id_none s.docs k hid
  have hf := findById_of_cast s req.id k hcast
  refine ⟨fun hp => ?_, ?_, ?_⟩
  · simp [updateExpense, destructure_of_hasPayload req hp, hf, hfind, tryCatch]
  · simp [deleteExpense, hf, hfind, tryCatch]
  · simp [deleteExpense, hf, hfind, tryCatch]

theorem unknown_id_is_not_found_witness :
    (updateExpense lunchStore
        (mkRequest "C1" "000000000000000000000007" "" (.obj [("amount", .num 3)]))).1
        = .responded ⟨404, .msg "Expense not found"⟩
      ∧ (updateExpense lunchStore
          (mkRequest "C1" "000000000000000000000007" "" (.obj [("amount", .num 3)]))).2.docs
        = [lunch]
      ∧ (deleteExpense lunchStore
          (mkRequest "C1" "000000000000000000000007" "" (.obj [("amount", .num 3)]))).1
        = .responded ⟨404, .msg "Expense not found"⟩
      ∧ (deleteExpense lunchStore
          (mkRequest "C1" "000000000000000000000007" "" (.obj [("amount", .num 3)]))).2.docs
        = [lunch] :=
  have h := unknown_id_is_not_found lunchStore
    (mkRequest "C1" "000000000000000000000007" "" (.obj [("amount", .num 3)])) 7 rfl
    (by simp [lunchStore, lunch])
  ⟨(h.1 (by simp [Request.hasPayload, mkRequest])).1,
   (h.1 (by simp [Request.hasPayload, mkRequest])).2, h.2.1, h.2.2⟩

/-- C7, as the claim states it, fails: the path parameter `7` is the identifier
of no expense of the store, and it is not a well-formed identifier either, so
`findById` throws; `updateExpense` and `deleteExpense` answer 500 with the text
Server Error, not 404. -/
theorem malformed_id_is_500 :
    (∀ e ∈ lunchStore.docs, castObjectId "7" ≠ some e._id)
      ∧ (updateExpense lunchStore (mkRequest "C1" "7" "" (.obj [("amount", .num 3)]))).1
        = .responded ⟨500, .text "Server Error"⟩
      ∧ (deleteExpense lunchStore (mkRequest "C1" "7" "" .undefined)).1
        = .responded ⟨500, .text "Server Error"⟩
      ∧ (updateExpense lunchStore
          (mkRequest "C1" "7" "" (.obj [("amount", .num 3)]))).2.docs = [lunch]
      ∧ (deleteExpense lunchStore (mkRequest "C1" "7" "" .undefined)).2.docs = [lunch] :=
  ⟨fun _ _ h => by simp [castObjectId] at h, rfl, rfl, rfl, rfl⟩

/-- C5: when the payload field `newCategory` is missing, null, the empty
string or a string of white space only, `updateCategory` answers 400 with body
`{message: "New category name is required."}` and the store is exactly as
before (no call on it is recorded, no document changed); and for a
`newCategory` string with a character that is not white space the response is
never 400. -/
theorem updateCategory_blank_is_400 (s : Store) (req : Request) (hp : req.hasPayload) :
    ((req.body.getProp "newCategory" = .undefined
        ∨ req.body.getProp "newCategory" = .null
        ∨ ∃ n : String, req.body.getProp "newCategory" = .str n
            ∧ ∀ c ∈ n.data, isWhiteSpace c = true) →
      updateCategory s req
        = (.responded ⟨400, .message "New category name is required."⟩, s))
    ∧ (∀ n : String, req.body.getProp "newCategory" = .str n →
        (∃ c ∈ n.data, isWhiteSpace c = false) →
        ∀ r, (updateCategory s req).1 = .responded r → r.status ≠ 400) := by
  have hd := destructure_of_hasPayload req hp
  constructor
  · rintro (h | h | ⟨n, h, hws⟩)
    · simp [updateCategory, hd, h, newCategoryIsBlank, JsVal.truthy]
    · simp [updateCategory, hd, h, newCategoryIsBlank, JsVal.truthy]
    · have ht : trimChars n.data = [] := (trimChars_eq_nil_iff n.data).mpr hws
      by_cases hn : n.data = []
      · simp [updateCategory, hd, h, newCategoryIsBlank, JsVal.truthy, hn]
      · simp [updateCategory, hd, h, newCategoryIsBlank, JsVal.truthy, hn, JsVal.trim, ht]
  · rintro n h ⟨c, hc, hcw⟩ r hr
    have ht : trimChars n.data ≠ [] := by
      intro h0
      have := (trimChars_eq_nil_iff n.data).mp h0 c hc
      simp [hcw] at this
    cases hpat : categoryPattern req.oldCategory with
    | error e =>
      rw [updateCategory_of_bad_pattern s req n e h ht hpat] at hr
      cases hr; decide
    | ok re =>
      rw [updateCategory_of_pattern s req n re h ht hpat] at hr
      simp only at hr
      split at hr <;> cases hr <;> simp

theorem updateCategory_blank_is_400_witness :
    updateCategory lunchStore (mkRequest "C1" "" "food" (.obj [("newCategory", .str "  ")]))
        = (.responded ⟨400, .message "New category name is required."⟩, lunchStore)
      ∧ updateCategory lunchStore (mkRequest "C1" "" "food" (.obj []))
        = (.responded ⟨400, .message "New category name is required."⟩, lunchStore)
      ∧ ∀ r, (updateCategory lunchStore
          (mkRequest "C1" "" "food" (.obj [("newCategory", .str " Meals ")]))).1 = .responded r →
          r.status ≠ 400 :=
  ⟨(updateCategory_blank_is_400 lunchStore
      (mkRequest "C1" "" "food" (.obj [("newCategory", .str "  ")]))
      (by simp [Request.hasPayload, mkRequest])).1
      (Or.inr (Or.inr ⟨"  ", rfl, by decide⟩)),
   (updateCategory_blank_is_400 lunchStore (mkRequest "C1" "" "food" (.obj []))
      (by simp [Request.hasPayload, mkRequest])).1 (Or.inl rfl),
   (updateCategory_blank_is_400 lunchStore
      (mkRequest "C1" "" "food" (.obj [("newCategory", .str " Meals ")]))
      (by simp [Request.hasPayload, mkRequest])).2 " Meals " rfl ⟨'M', by decide, by decide⟩⟩

/-- C6: `updateExpense` by the owner of a stored expense answers 200 with the
expense as it is after the update; each of title, amount, category and date is
the value of the payload when that value is truthy and the prior value
otherwise; identifier and owner stay; every other document stays and none is
added or removed; with no truthy field the documents of the store are as
before. -/
theorem updateExpense_applies_truthy_fields (s : Store) (hwf : s.WellFormed) (e : Expense)
    (he : e ∈ s.docs) (req : Request) (hp : req.hasPayload)
    (hid : castObjectId req.id = some e._id) (hown : e.user = req.userId) :
    ∃ e2 : Expense,
      (updateExpense s req).1 = .responded ⟨200, .expense (some e2)⟩
      ∧ e2._id = e._id ∧ e2.user = e.user
      ∧ e2.title = (if (req.body.getProp "title").truthy
          then req.body.getProp "title" else e.title)
      ∧ e2.amount = (if (req.body.getProp "amount").truthy
          then req.body.getProp "amount" else e.amount)
      ∧ e2.category = (if (req.body.getProp "category").truthy
          then req.body.getProp "category" else e.category)
      ∧ e2.date = (if (req.body.getProp "date").truthy
          then req.body.getProp "date" else e.date)
      ∧ (updateExpense s req).2.docs = s.docs.map (fun x => if x._id = e._id then e2 else x)
      ∧ e2 ∈ (updateExpense s req).2.docs
      ∧ (∀ x ∈ s.docs, x._id ≠ e._id → x ∈ (updateExpense s req).2.docs)
      ∧ ((req.body.getProp "title").truthy = false → (req.body.getProp "amount").truthy = false →
          (req.body.getProp "category").truthy = false →
          (req.body.getProp "date").truthy = false →
          e2 = e ∧ (updateExpense s req).2.docs = s.docs) := by
  have hfind := find?_id_of_mem s.docs hwf e he
  have hd := destructure_of_hasPayload req hp
  have hupd := find?_id_map_update s.docs hwf e he
    (fun x => x.set (expenseFields (req.body.getProp "title") (req.body.getProp "amount")
      (req.body.getProp "category") (req.body.getProp "date"))) (fun _ => rfl)
  have hmap := map_update_eq s.docs hwf e he
    (fun x => x.set (expenseFields (req.body.getProp "title") (req.body.getProp "amount")
      (req.body.getProp "category") (req.body.getProp "date")))
  have hdocs : (updateExpense s req).2.docs = s.docs.map (fun x => if x._id = e._id then
      e.set (expenseFields (req.body.getProp "title") (req.body.getProp "amount")
        (req.body.getProp "category") (req.body.getProp "date")) else x) := by
    rw [← hmap]
    simp [updateExpense, hd, findById_of_cast s req.id e._id hid, hfind, hown,
      findByIdAndUpdate_of_cast _ req.id e._id _ hid, tryCatch]
  refine ⟨e.set (expenseFields (req.body.getProp "title") (req.body.getProp "amount")
      (req.body.getProp "category") (req.body.getProp "date")), ?_, rfl, rfl, ?_, ?_, ?_, ?_,
      hdocs, ?_, ?_, ?_⟩
  · simp only [updateExpense, hd, findById_of_cast s req.id e._id hid, hfind, hown,
      findByIdAndUpdate_of_cast _ req.id e._id _ hid, tryCatch, hupd, ne_eq,
      not_true_eq_false, ↓reduceIte]
  · simp only [Expense.set, expenseFields]; split <;> rfl
  · simp only [Expense.set, expenseFields]; split <;> rfl
  · simp only [Expense.set, expenseFields]; split <;> rfl
  · simp only [Expense.set, expenseFields]; split <;> rfl
  · rw [hdocs]
    exact List.mem_map.mpr ⟨e, he, by simp⟩
  · intro x hx hne
    rw [hdocs]
    exact List.mem_map.mpr ⟨x, hx, by simp [hne]⟩
  · intro h1 h2 h3 h4
    have hset : e.set (expenseFields (req.body.getProp "title") (req.body.getProp "amount")
        (req.body.getProp "category") (req.body.getProp "date")) = e := by
      simp [Expense.set, expenseFields, h1, h2, h3, h4]
    refine ⟨hset, ?_⟩
    rw [hdocs, hset]
    conv_rhs => rw [← List.map_id s.docs]
    apply List.map_congr_left
    intro x hx
    by_cases hxe : x._id = e._id
    · have hx2 := find?_id_of_mem s.docs hwf x hx
      rw [hxe, hfind] at hx2
      cases hx2
      simp
    · simp [hxe]

theorem updateExpense_applies_truthy_fields_witness :
    ∃ e2 : Expense,
      (updateExpense lunchStore (mkRequest "C1" "000000000000000000000001" ""
          (.obj [("title", .str "Dinner"), ("amount", .num 0), ("user", .str "C2")]))).1
        = .responded ⟨200, .expense (some e2)⟩
      ∧ e2._id = 1 ∧ e2.user = "C1" ∧ e2.title = .str "Dinner" ∧ e2.amount = .num 12
      ∧ e2.category = .str "Food" ∧ e2.date = .num 1700000000000 := by
  obtain ⟨e2, h1, h2, h3, h4, h5, h6, h7, _⟩ :=
    updateExpense_applies_truthy_fields lunchStore (by simp [Store.WellFormed, lunchStore]) lunch
      (by simp [lunchStore])
      (mkRequest "C1" "000000000000000000000001" "" (.obj [("title", .str "Dinner"), ("amount", .num 0),
        ("user", .str "C2")]))
      (by simp [Request.hasPayload, mkRequest]) rfl rfl
  exact ⟨e2, h1, h2, h3, h4.trans rfl, h5.trans rfl, h6.trans rfl, h7.trans rfl⟩

/-- C9: `addExpense` answers 200 with the inserted expense, whose owner is the
caller (whatever the payload says about a user) and whose title, amount,
category and date are the values of the payload; the documents afterwards are
those before followed by the new one, under an identifier that no document
had. -/
theorem addExpense_inserts_for_caller (s : Store) (req : Request) (hp : req.hasPayload) :
    ∃ doc : Expense,
      (addExpense s req).1 = .responded ⟨200, .expense (some doc)⟩
      ∧ doc.user = req.userId
      ∧ doc.title = req.body.getProp "title"
      ∧ doc.amount = req.body.getProp "amount"
      ∧ doc.category = req.body.getProp "category"
      ∧ doc.date = req.body.getProp "date"
      ∧ (addExpense s req).2.docs = s.docs ++ [doc]
      ∧ ∀ x ∈ s.docs, x._id ≠ doc._id := by
  have hd := destructure_of_hasPayload req hp
  refine ⟨⟨s.freshId, req.userId, req.body.getProp "title", req.body.getProp "amount",
    req.body.getProp "category", req.body.getProp "date"⟩, ?_, rfl, rfl, rfl, rfl, rfl, ?_,
    freshId_fresh s⟩
  · simp [addExpense, hd, Store.save, tryCatch]
  · simp [addExpense, hd, Store.save, tryCatch]

theorem addExpense_inserts_for_caller_witness :
    ∃ doc : Expense,
      (addExpense lunchStore (mkRequest "C2" "" ""
          (.obj [("title", .str "Taxi"), ("amount", .num 30), ("category", .str "Travel"),
            ("date", .num 1700000500000), ("user", .str "C1")]))).1
        = .responded ⟨200, .expense (some doc)⟩
      ∧ doc.user = "C2" ∧ doc.title = .str "Taxi" ∧ doc.amount = .num 30
      ∧ doc.category = .str "Travel" ∧ doc.date = .num 1700000500000
      ∧ (addExpense lunchStore (mkRequest "C2" "" ""
          (.obj [("title", .str "Taxi"), ("amount", .num 30), ("category", .str "Travel"),
            ("date", .num 1700000500000), ("user", .str "C1")]))).2.docs = [lunch, doc]
      ∧ doc._id ≠ 1 := by
  obtain ⟨doc, h1, h2, h3, h4, h5, h6, h7, h8⟩ :=
    addExpense_inserts_for_caller lunchStore
      (mkRequest "C2" "" ""
        (.obj [("title", .str "Taxi"), ("amount", .num 30), ("category", .str "Travel"),
          ("date", .num 1700000500000), ("user", .str "C1")]))
      (by simp [Request.hasPayload, mkRequest])
  exact ⟨doc, h1, h2, h3.trans rfl, h4.trans rfl, h5.trans rfl, h6.trans rfl, h7,
    fun h => h8 lunch (by simp [lunchStore]) h.symm⟩

/-- C10: for an old category of letters and digits and a non-blank new name
that differs from it even ignoring case, after an `updateCategory` that
answered 200 the next `updateCategory` of the same caller with the same old
category (and any non-blank new name) answers 404 and leaves the documents of
the store as they are. -/
theorem updateCategory_repeat_is_404 (s : Store) (req req2 : Request) (new new2 : String)
    (hold : ∀ c ∈ req.oldCategory.data, c.isAlphanum = true)
    (hbody : req.body.getProp "newCategory" = .str new)
    (hnew : trimChars new.data ≠ [])
    (hdiff : equalIgnoringCase new req.oldCategory = false)
    (_h200 : ∃ m, (updateCategory s req).1 = .responded ⟨200, .message m⟩)
    (hcaller : req2.userId = req.userId) (hsame : req2.oldCategory = req.oldCategory)
    (hbody2 : req2.body.getProp "newCategory" = .str new2)
    (hnew2 : trimChars new2.data ≠ []) :
    (updateCategory (updateCategory s req).2 req2).1
        = .responded ⟨404, .message ("No expenses found with category \x27" ++ req.oldCategory
            ++ "\x27 for this user.")⟩
      ∧ (updateCategory (updateCategory s req).2 req2).2.docs = (updateCategory s req).2.docs := by
  obtain ⟨re, hpat, htest⟩ := categoryPattern_test_alphanum req.oldCategory hold
  have hpat2 : categoryPattern req2.oldCategory = .ok re := by rw [hsame]; exact hpat
  have hsel : ∀ x ∈ (updateCategory s req).2.docs, findQuery req2.userId re x = false := by
    intro x hx
    rw [updateCategory_of_pattern s req new re hbody hnew hpat] at hx
    obtain ⟨y, _, rfl⟩ := List.mem_map.mp hx
    rw [hcaller]
    by_cases hy : findQuery req.userId re y = true
    · rw [if_pos hy]
      simp [findQuery, htest, hdiff]
    · rw [if_neg hy]
      simpa using hy
  have hnone : ((updateCategory s req).2.docs.filter (findQuery req2.userId re)).length = 0 := by
    rw [List.length_eq_zero, List.filter_eq_nil_iff]
    intro x hx
    simp [hsel x hx]
  rw [updateCategory_of_pattern _ req2 new2 re hbody2 hnew2 hpat2]
  simp only [hnone, ↓reduceIte, hsame, true_and]
  conv_rhs => rw [← List.map_id (updateCategory s req).2.docs]
  apply List.map_congr_left
  intro x hx
  simp [hsel x hx]

theorem updateCategory_repeat_is_404_witness :
    (updateCategory lunchStore
        (mkRequest "C1" "" "food" (.obj [("newCategory", .str "Meals")]))).1
      = .responded ⟨200, .message "Category \x27food\x27 was successfully updated to \x27Meals\x27."⟩
    ∧ (updateCategory lunchStore
        (mkRequest "C1" "" "food" (.obj [("newCategory", .str "Meals")]))).2.docs
      = [{ lunch with category := .str "Meals" }]
    ∧ (updateCategory (updateCategory lunchStore
          (mkRequest "C1" "" "food" (.obj [("newCategory", .str "Meals")]))).2
        (mkRequest "C1" "" "food" (.obj [("newCategory", .str "Meals")]))).1
      = .responded ⟨404, .message "No expenses found with category \x27food\x27 for this user."⟩
    ∧ (updateCategory (updateCategory lunchStore
          (mkRequest "C1" "" "food" (.obj [("newCategory", .str "Meals")]))).2
        (mkRequest "C1" "" "food" (.obj [("newCategory", .str "Meals")]))).2.docs
      = [{ lunch with category := .str "Meals" }] :=
  have h := updateCategory_repeat_is_404 lunchStore
    (mkRequest "C1" "" "food" (.obj [("newCategory", .str "Meals")]))
    (mkRequest "C1" "" "food" (.obj [("newCategory", .str "Meals")])) "Meals" "Meals"
    (by decide) rfl (by decide) (by decide) ⟨_, rfl⟩ rfl rfl rfl (by decide)
  ⟨rfl, rfl, h.1, h.2.trans rfl⟩

/-- C3 (the code departs from the claim): the old category is read as a
pattern.  With old category `foo.` the filter selects the stored category
`Food`, which is not equal to it ignoring case; with old category
`Food (home)` the filter does not select the stored category `Food (home)`,
which is equal to it.  For `food` and `foo` the filter does what the claim
says. -/
theorem categoryFilter_reads_old_as_pattern :
    (categoryPattern "foo.").map (fun re => findQuery "C1" re lunch) = .ok true
      ∧ equalIgnoringCase "Food" "foo." = false
      ∧ (categoryPattern "Food (home)").map
          (fun re => findQuery "C1" re { lunch with category := .str "Food (home)" }) = .ok false
      ∧ equalIgnoringCase "Food (home)" "Food (home)" = true
      ∧ (categoryPattern "food").map (fun re => findQuery "C1" re lunch) = .ok true
      ∧ (categoryPattern "foo").map (fun re => findQuery "C1" re lunch) = .ok false :=
  ⟨rfl, rfl, rfl, rfl, rfl, rfl⟩

/-- C4 (the code departs from the claim): with old category `(` and a
non-blank new name, no expense of the caller matches, yet `updateCategory`
answers 500 with the text Server Error and not 404; the store is as before. -/
theorem updateCategory_open_bracket_is_500 :
    categoryPattern "(" = .error .syntaxError
      ∧ updateCategory lunchStore (mkRequest "C1" "" "(" (.obj [("newCategory", .str "Meals")]))
        = (.responded ⟨500, .text "Server Error"⟩, lunchStore) :=
  ⟨rfl, rfl⟩

/-- C8 (the code departs from the claim): a truthy `newCategory` that is not a
string makes `updateCategory` throw on `newCategory.trim()` before its `try`
block is entered, and a request without a parsed body makes `addExpense`,
`updateExpense` and `updateCategory` throw on the destructuring of `req.body`,
also outside `try`: the handler ends with an uncaught `TypeError` and sends no
response. -/
theorem validation_throws_outside_try (s : Store) (caller id old : String) :
    updateCategory s (mkRequest caller id old (.obj [("newCategory", .num 5)]))
        = (.uncaught .typeError, s)
      ∧ updateCategory s (mkRequest caller id old (.obj [("newCategory", .obj [])]))
        = (.uncaught .typeError, s)
      ∧ updateCategory s (mkRequest caller id old .undefined) = (.uncaught .typeError, s)
      ∧ updateExpense s (mkRequest caller id old .undefined) = (.uncaught .typeError, s)
      ∧ addExpense s (mkRequest caller id old .undefined) = (.uncaught .typeError, s) :=
  ⟨rfl, rfl, rfl, rfl, rfl⟩

end ExpenseServer
